import Mathlib

/-!
Verification development for the TinyCBOR codec (encoder `cborencoder.c`,
parser `cborparser.c`, support header `compilersupport_p.h`).

The C sources are shallowly embedded: bytes are `Nat` values below 256, byte
buffers are `List Nat`, `size_t` arithmetic is modelled as `Nat` with explicit
reduction modulo `2 ^ 64`, the 32-bit `remaining` counter of a cursor reduces
modulo `2 ^ 32`, and fallible C functions return `Except CborError`.
Out-of-bounds reads, which are undefined behaviour in the C sources, read the
byte 0 (`List.getD`).
-/

/-! ## Constants from cborconstants_p.h and cbor.h -/

def MajorTypeShift : Nat := 5
def SmallValueMask : Nat := 31
def MajorTypeMask : Nat := 0xe0

def Value8Bit : Nat := 24
def Value16Bit : Nat := 25
def Value32Bit : Nat := 26
def Value64Bit : Nat := 27
def IndefiniteLength : Nat := 31

def UnsignedIntegerType : Nat := 0
def NegativeIntegerType : Nat := 1
def ByteStringType : Nat := 2
def TextStringType : Nat := 3
def ArrayType : Nat := 4
def MapType : Nat := 5
def TagType : Nat := 6
def SimpleTypesType : Nat := 7

def FalseValue : Nat := 20
def TrueValue : Nat := 21
def NullValue : Nat := 22
def UndefinedValue : Nat := 23
def SimpleTypeInNextByte : Nat := 24
def HalfPrecisionFloat : Nat := 25
def SinglePrecisionFloat : Nat := 26
def DoublePrecisionFloat : Nat := 27
def Break : Nat := 31

def BreakByte : Nat := 0xff

def CborIntegerType : Nat := 0x00
def CborByteStringType : Nat := 0x40
def CborTextStringType : Nat := 0x60
def CborArrayType : Nat := 0x80
def CborMapType : Nat := 0xa0
def CborTagType : Nat := 0xc0
def CborSimpleType : Nat := 0xe0
def CborBooleanType : Nat := 0xf5
def CborInvalidType : Nat := 0xff

def CborIteratorFlag_IntegerValueTooLarge : Nat := 0x01
def CborIteratorFlag_NegativeInteger : Nat := 0x02
def CborIteratorFlag_UnknownLength : Nat := 0x04

def UINT8_MAX : Nat := 0xff
def UINT16_MAX : Nat := 0xffff
def UINT32_MAX : Nat := 0xffffffff
def SIZE_MAX : Nat := 2 ^ 64 - 1

/-- The error enumeration of cbor.h (success is the `Except.ok` branch). -/
inductive CborError where
  | UnexpectedEOF
  | UnexpectedBreak
  | UnknownType
  | IllegalType
  | IllegalNumber
  | IllegalSimpleType
  | GarbageAtEnd
  | AdvancePastEOF
  | DataTooLarge
  | OutOfMemory
deriving DecidableEq, Repr

/-! ## Byte-level helpers (big-endian packing, memcpy model) -/

/-- Read the byte at offset `p`; reading past the end yields 0. -/
def byteAt (buf : List Nat) (p : Nat) : Nat := buf.getD p 0

/-- Big-endian bytes of `n`, `k` bytes wide (`htobe`/`put16`/`put32`/`put64`). -/
def beBytes : Nat → Nat → List Nat
  | 0, _ => []
  | k + 1, n => beBytes k (n / 256) ++ [n % 256]

/-- Big-endian read of `k` bytes at offset `p` (`be16toh`/`get16` etc.). -/
def getBE (buf : List Nat) (p : Nat) : Nat → Nat
  | 0 => 0
  | k + 1 => getBE buf p k * 256 + byteAt buf (p + k)

def get16 (buf : List Nat) (p : Nat) : Nat := getBE buf p 2
def get32 (buf : List Nat) (p : Nat) : Nat := getBE buf p 4
def get64 (buf : List Nat) (p : Nat) : Nat := getBE buf p 8

/-- The `n` source bytes starting at offset `p` (argument of `memcpy`). -/
def sliceBytes (buf : List Nat) (p n : Nat) : List Nat :=
  (List.range n).map (fun i => byteAt buf (p + i))

/-- `memcpy(store + off, data, data.length)` on a byte store. -/
def writeRange (store : Nat → Nat) (off : Nat) (data : List Nat) : Nat → Nat :=
  fun i => if off ≤ i ∧ i < off + data.length then data.getD (i - off) 0 else store i

/-- The first `n` bytes of a store, as a list (used to state what was copied). -/
def readOut (store : Nat → Nat) (n : Nat) : List Nat :=
  (List.range n).map store

/-! ## Encoder (cborencoder.c)

`CborEncoder` models the `(ptr, end)` pair of the C structure: `bytes` is what
has been written between the base pointer and `ptr`, `cap` is `end - base`. -/

structure CborEncoder where
  bytes : List Nat
  cap : Nat
deriving DecidableEq, Repr

/-- `append_to_buffer`: bounds check against `end`, then `memcpy` + advance. -/
def append_to_buffer (encoder : CborEncoder) (data : List Nat) :
    Except CborError CborEncoder :=
  if encoder.cap < encoder.bytes.length + data.length then .error .OutOfMemory
  else .ok { encoder with bytes := encoder.bytes ++ data }

/-- The bytes the `char buf[1 + sizeof(uint64_t)]` of `encode_number` holds
when it is handed to `append_to_buffer` (cborencoder.c, first revision:
the `ui < Value8Bit` / `UINT8_MAX` / `UINT16_MAX` / `UINT32_MAX` chain). -/
def encode_number_buf (ui shiftedMajorType : Nat) : List Nat :=
  if ui < Value8Bit then [shiftedMajorType + ui]
  else if ui ≤ UINT8_MAX then [shiftedMajorType + Value8Bit, ui]
  else if ui ≤ UINT16_MAX then (shiftedMajorType + Value16Bit) :: beBytes 2 ui
  else if ui ≤ UINT32_MAX then (shiftedMajorType + Value32Bit) :: beBytes 4 ui
  else (shiftedMajorType + Value64Bit) :: beBytes 8 ui

/-- `encode_number(encoder, ui, shiftedMajorType)`. -/
def encode_number (encoder : CborEncoder) (ui shiftedMajorType : Nat) :
    Except CborError CborEncoder :=
  append_to_buffer encoder (encode_number_buf ui shiftedMajorType)

def cbor_encode_uint (encoder : CborEncoder) (value : Nat) :
    Except CborError CborEncoder :=
  encode_number encoder value (UnsignedIntegerType <<< MajorTypeShift)

/-- `cbor_encode_int`: sign-extend, extract major type, complement negatives
(RFC 7049 appendix C).  `value` is an `int64_t`. -/
def cbor_encode_int (encoder : CborEncoder) (value : Int) :
    Except CborError CborEncoder :=
  let valueBits : Nat := (value % (2 ^ 64)).toNat
  let ui : Nat := if value < 0 then 2 ^ 64 - 1 else 0
  let majorType : Nat := ui &&& 0x20
  let ui : Nat := ui ^^^ valueBits
  encode_number encoder ui majorType

/-- `cbor_encode_simple_value`, with the check-user option compiled in
(`CBOR_ENCODER_NO_CHECK_USER` not defined). -/
def cbor_encode_simple_value (encoder : CborEncoder) (value : Nat) :
    Except CborError CborEncoder :=
  if HalfPrecisionFloat ≤ value ∧ value ≤ Break then .error .IllegalSimpleType
  else encode_number encoder value (SimpleTypesType <<< MajorTypeShift)

def cbor_encode_tag (encoder : CborEncoder) (tag : Nat) :
    Except CborError CborEncoder :=
  encode_number encoder tag (TagType <<< MajorTypeShift)

/-- `encode_string`: emit the length head, then the payload. -/
def encode_string (encoder : CborEncoder) (length : Nat) (shiftedMajorType : Nat)
    (string : List Nat) : Except CborError CborEncoder :=
  match encode_number encoder length shiftedMajorType with
  | .error e => .error e
  | .ok enc => append_to_buffer enc string

/-! ## Parser (cborparser.c, CborError-returning revision)

`CborValue` holds the cursor fields of cbor.h: `ptr` is the byte offset into
the input, `remaining` the 32-bit item counter (`UINT32_MAX` = indefinite
sentinel), `extra` the partially decoded 16-bit head value.  The parser's
`end` pointer is `buf.length`. -/

structure CborValue where
  ptr : Nat
  remaining : Nat
  extra : Nat
  type : Nat
  flags : Nat
deriving DecidableEq, Repr

/-- `extract_number(parser, ptr, len)`: decode one integer head at `ptr`. -/
def extract_number (buf : List Nat) (ptr : Nat) : Except CborError (Nat × Nat) :=
  let additional_information := byteAt buf ptr &&& SmallValueMask
  let p := ptr + 1
  if additional_information < Value8Bit then .ok (additional_information, p)
  else if Value64Bit < additional_information then .error .IllegalNumber
  else
    let bytesNeeded := 2 ^ (additional_information - Value8Bit)
    if buf.length < p + bytesNeeded then .error .UnexpectedEOF
    else
      let len :=
        if bytesNeeded = 1 then byteAt buf p
        else if bytesNeeded = 2 then get16 buf p
        else if bytesNeeded = 4 then get32 buf p
        else get64 buf p
      .ok (len, p + bytesNeeded)

/-- `extract_length`: `extract_number` plus the `size_t` truncation check
(`size_t` is modelled as 64-bit, so the check never fires). -/
def extract_length (buf : List Nat) (ptr : Nat) : Except CborError (Nat × Nat) :=
  match extract_number buf ptr with
  | .error e => .error e
  | .ok (v, p) =>
    let len := v % 2 ^ 64
    if v ≠ len then .error .DataTooLarge else .ok (len, p)

def is_fixed_type (ty : Nat) : Bool :=
  ty ≠ CborTextStringType && ty ≠ CborByteStringType && ty ≠ CborArrayType &&
    ty ≠ CborMapType

/-- `preparse_value` (CborError-returning revision, strict checks compiled in). -/
def preparse_value (buf : List Nat) (it : CborValue) : Except CborError CborValue :=
  if it.ptr = buf.length then .error .UnexpectedEOF
  else
    let descriptor0 := byteAt buf it.ptr
    let ty := descriptor0 &&& MajorTypeMask
    let descriptor := descriptor0 &&& SmallValueMask
    let it := { it with flags := 0, type := CborInvalidType, extra := descriptor }
    if descriptor = IndefiniteLength ∧ ¬ is_fixed_type ty then
      .ok { it with flags := CborIteratorFlag_UnknownLength, type := ty }
    else
      let bytesNeeded := if descriptor < Value8Bit then 0 else 2 ^ (descriptor - Value8Bit)
      if buf.length < it.ptr + 1 + bytesNeeded then .error .UnexpectedEOF
      else
        let step : Except CborError (Nat × Nat × Nat) :=
          if ty >>> MajorTypeShift = NegativeIntegerType then
            .ok (CborIteratorFlag_NegativeInteger, CborIntegerType, it.extra)
          else if ty >>> MajorTypeShift = SimpleTypesType then
            if descriptor = FalseValue then .ok (0, CborBooleanType, 0)
            else if descriptor = TrueValue ∨ descriptor = NullValue ∨
                descriptor = UndefinedValue ∨ descriptor = HalfPrecisionFloat ∨
                descriptor = SinglePrecisionFloat ∨ descriptor = DoublePrecisionFloat then
              .ok (0, descriptor0, it.extra)
            else if descriptor = SimpleTypeInNextByte then
              if byteAt buf (it.ptr + 1) < 32 then .error .IllegalSimpleType
              else .ok (0, ty, it.extra)
            else if descriptor = 28 ∨ descriptor = 29 ∨ descriptor = 30 then
              .error .UnknownType
            else if descriptor = Break then .error .UnexpectedBreak
            else .ok (0, ty, it.extra)
          else .ok (0, ty, it.extra)
        match step with
        | .error e => .error e
        | .ok (fl, tyOut, ex) =>
          if Value64Bit < descriptor then .error .IllegalNumber
          else
            let it := { it with flags := fl, type := tyOut, extra := ex }
            if descriptor < Value8Bit then .ok it
            else if descriptor = Value8Bit then
              .ok { it with extra := byteAt buf (it.ptr + 1) }
            else if descriptor = Value16Bit then
              .ok { it with extra := get16 buf (it.ptr + 1) }
            else
              .ok { it with flags := it.flags ||| CborIteratorFlag_IntegerValueTooLarge }

/-- `preparse_next_value`: decrement the 32-bit `remaining` counter (with
wrap-around, as `--it->remaining` does on `uint32_t`), detect the end of the
stream, otherwise pre-parse the next head. -/
def preparse_next_value (buf : List Nat) (it : CborValue) : Except CborError CborValue :=
  let it := { it with type := CborInvalidType }
  if it.remaining ≠ UINT32_MAX then
    let r := (it.remaining + UINT32_MAX) % 2 ^ 32
    if r = 0 then
      if it.ptr = buf.length then .ok { it with remaining := 0 }
      else .error .GarbageAtEnd
    else preparse_value buf { it with remaining := r }
  else preparse_value buf it

/-- `advance_internal`: consume the current head via `extract_number`; for
non-fixed types additionally add the decoded `length` to the position (the C
code `assert`s that `extract_number` succeeds; the embedding propagates the
error, which never fires on the traces proved below). -/
def advance_internal (buf : List Nat) (it : CborValue) : Except CborError CborValue :=
  match extract_number buf it.ptr with
  | .error e => .error e
  | .ok (length, p) =>
    let p := if is_fixed_type it.type then p else p + length
    let it := { it with ptr := p }
    if it.remaining = UINT32_MAX ∧ byteAt buf p = BreakByte then
      .ok { it with remaining := 0 }
    else preparse_next_value buf it

/-- `cbor_parser_init`: cursor at offset 0 with `remaining = 1`, pre-parsed. -/
def cbor_parser_init (buf : List Nat) : Except CborError CborValue :=
  preparse_value buf { ptr := 0, remaining := 1, extra := 0, type := 0, flags := 0 }

/-- `cbor_value_at_end` (cbor.h): `remaining == 0`. -/
def cbor_value_at_end (it : CborValue) : Bool := it.remaining = 0

/-- `cbor_value_advance_fixed` (the C `assert`s are compiled out). -/
def cbor_value_advance_fixed (buf : List Nat) (it : CborValue) :
    Except CborError CborValue :=
  if it.remaining = 0 then .error .AdvancePastEOF
  else advance_internal buf it

/-- `_cbor_value_decode_int64_internal`: re-read a 4- or 8-byte follow-on. -/
def cbor_value_decode_int64_internal (buf : List Nat) (value : CborValue) : Nat :=
  if byteAt buf value.ptr &&& SmallValueMask = Value32Bit then get32 buf (value.ptr + 1)
  else get64 buf (value.ptr + 1)

/-- `_cbor_value_extract_int64_helper` (cbor.h). -/
def cbor_value_extract_int64_helper (buf : List Nat) (value : CborValue) : Nat :=
  if value.flags &&& CborIteratorFlag_IntegerValueTooLarge ≠ 0 then
    cbor_value_decode_int64_internal buf value
  else value.extra

/-- Reinterpret a 64-bit pattern as a signed `int64_t` value. -/
def int64OfBits (n : Nat) : Int :=
  if n < 2 ^ 63 then (n : Int) else (n : Int) - 2 ^ 64

/-- `cbor_value_get_int64` (cbor.h as embedded in examples/simplereader.c):
`*result = (int64_t) _cbor_value_extract_int64_helper(value);`. -/
def cbor_value_get_int64 (buf : List Nat) (value : CborValue) : Int :=
  int64OfBits (cbor_value_extract_int64_helper buf value)

/-- `cbor_value_enter_container`: copy the cursor, set the child `remaining`
from the declared length (indefinite sentinel for unknown length, with the
`uint32_t` truncation check), then `advance_internal` onto the first element. -/
def cbor_value_enter_container (buf : List Nat) (it : CborValue) :
    Except CborError CborValue :=
  if it.flags &&& CborIteratorFlag_UnknownLength ≠ 0 then
    advance_internal buf { it with remaining := UINT32_MAX }
  else
    let len := cbor_value_extract_int64_helper buf it
    let rem := len % 2 ^ 32
    if rem ≠ len ∨ len = UINT32_MAX then .error .DataTooLarge
    else advance_internal buf { it with remaining := rem }

/-- `cbor_value_is_length_known` (cbor.h). -/
def cbor_value_is_length_known (value : CborValue) : Bool :=
  value.flags &&& CborIteratorFlag_UnknownLength = 0

/-! ## Overflow-checked addition (compilersupport_p.h)

Two revisions of `add_check_overflow` coexist in the repository.  The one in
src/src/compilersupport_p.h returns **true iff the addition overflowed**
(`__builtin_add_overflow`, and the `v1 > v1 + v2` fallback agrees).  The
second revision of the other compilersupport header has an `#else` fallback
`*r = v1 + v2; return v1 <= SIZE_MAX - v2;`, i.e. **true iff the sum fits**,
which is the convention the `!add_check_overflow(...)` call sites in
cborparser.c expect. -/

/-- `add_check_overflow` of src/src/compilersupport_p.h: result is
`(overflowed, wrapped sum)`. -/
def add_check_overflow (v1 v2 : Nat) : Bool × Nat :=
  let r := (v1 + v2) % 2 ^ 64
  (decide (r < v1), r)

/-- `add_check_overflow`, pre-builtin fallback branch: result is
`(sum fits in size_t, wrapped sum)`. -/
def add_check_overflow_fallback (v1 v2 : Nat) : Bool × Nat :=
  (decide (v1 ≤ SIZE_MAX - v2), (v1 + v2) % 2 ^ 64)

/-! ## String extraction (cborparser.c, CborError-returning revision) -/

/-- The chunk-iteration loop of `cbor_value_copy_string`.  `fuel` bounds the
number of iterations (each C iteration advances `ptr`, so
`buf.length + 1` fuel is always sufficient); running out of fuel yields
`UnexpectedEOF`, which never happens on a terminating C execution.  State:
current read offset `ptr`, accumulated `total`, destination `buffer`. -/
def copy_string_loop (buf : List Nat) (ty buflen : Nat) :
    Nat → Nat → Nat → Option (Nat → Nat) →
    Except CborError (Option (Nat → Nat) × Nat × Nat)
  | 0, _, _, _ => .error .UnexpectedEOF
  | fuel + 1, ptr, total, buffer =>
    if ptr = buf.length then .error .UnexpectedEOF
    else if byteAt buf ptr = BreakByte then .ok (buffer, total, ptr + 1)
    else if byteAt buf ptr &&& MajorTypeMask ≠ ty then .error .IllegalType
    else
      match extract_length buf ptr with
      | .error e => .error e
      | .ok (chunkLen, p) =>
        let (fits, newTotal) := add_check_overflow_fallback total chunkLen
        if fits = false then .error .DataTooLarge
        else
          match buffer with
          | some store =>
            if buflen < newTotal then .error .OutOfMemory
            else
              copy_string_loop buf ty buflen fuel (p + chunkLen) newTotal
                (some (writeRange store total (sliceBytes buf p chunkLen)))
          | none => copy_string_loop buf ty buflen fuel (p + chunkLen) newTotal none

/-- The tail of `cbor_value_copy_string`: terminating NUL byte when the
buffer has room, reporting `total`, and the optional `next` pre-parse. -/
def copy_string_finish (buf : List Nat) (value : CborValue) (buflen : Nat)
    (wantNext : Bool) (buffer : Option (Nat → Nat)) (ptr total : Nat) :
    Except CborError (Option (Nat → Nat) × Nat × Option CborValue) :=
  let buffer := match buffer with
    | some store => some (if total < buflen then writeRange store total [0] else store)
    | none => none
  if wantNext then
    match preparse_next_value buf { value with ptr := ptr } with
    | .error e => .error e
    | .ok nx => .ok (buffer, total, some nx)
  else .ok (buffer, total, none)

/-- `cbor_value_copy_string(value, buffer, buflen, next)` (CborError-returning
revision).  `buffer = none` models a NULL destination; the returned triple is
(resulting destination store, `*buflen` out-value, optional `next` cursor). -/
def cbor_value_copy_string (buf : List Nat) (value : CborValue)
    (buffer : Option (Nat → Nat)) (buflen : Nat) (wantNext : Bool) :
    Except CborError (Option (Nat → Nat) × Nat × Option CborValue) :=
  if cbor_value_is_length_known value then
    match extract_length buf value.ptr with
    | .error e => .error e
    | .ok (total, p) =>
      match buffer with
      | some store =>
        if buflen < total then .error .OutOfMemory
        else
          copy_string_finish buf value buflen wantNext
            (some (writeRange store 0 (sliceBytes buf p total))) (p + total) total
      | none => copy_string_finish buf value buflen wantNext none p total
  else
    match copy_string_loop buf value.type buflen (buf.length + 1) (value.ptr + 1) 0
        buffer with
    | .error e => .error e
    | .ok (buffer, total, ptr) =>
      copy_string_finish buf value buflen wantNext buffer ptr total

/-- `cbor_value_calculate_string_length` (CborError-returning revision):
`cbor_value_copy_string(value, NULL, len, NULL)`. -/
def cbor_value_calculate_string_length (buf : List Nat) (value : CborValue) :
    Except CborError Nat :=
  match cbor_value_copy_string buf value none 0 false with
  | .error e => .error e
  | .ok (_, total, _) => .ok total

/-! ## String length, bool-returning revision (second half of cborparser.c)

These are the call sites cited together with src/src/compilersupport_p.h:
`cbor_value_calculate_string_length` iterates chunks via `copy_chunk` and
checks `if (!add_check_overflow(total, chunkLen, &total)) return
makeError(..., CborErrorDataTooLarge, ...)`. -/

/-- `extract_length` of the bool-returning revision (its `>= Value8Bit` path
advances by `bytesNeeded` only, not past the head byte, exactly as in the
source). -/
def extract_length_v2 (buf : List Nat) (ptr : Nat) : Except CborError (Nat × Nat) :=
  let additional_information := byteAt buf ptr &&& SmallValueMask
  if additional_information < Value8Bit then .ok (additional_information, ptr + 1)
  else if Value64Bit < additional_information then .error .IllegalNumber
  else
    let bytesNeeded := 2 ^ (additional_information - Value8Bit)
    if buf.length < ptr + 1 + bytesNeeded then .error .UnexpectedEOF
    else
      let len :=
        if bytesNeeded = 1 then byteAt buf (ptr + 1)
        else if bytesNeeded = 2 then get16 buf (ptr + 1)
        else if bytesNeeded = 4 then get32 buf (ptr + 1)
        else get64 buf (ptr + 1)
      .ok (len, ptr + bytesNeeded)

/-- `copy_chunk(parser, expectedType, dst, src, chunkLen)` with a NULL `dst`
(the only way `cbor_value_calculate_string_length` calls it): type check,
`extract_length`, skip the chunk payload. -/
def copy_chunk (buf : List Nat) (expectedType src : Nat) :
    Except CborError (Nat × Nat) :=
  if byteAt buf src &&& MajorTypeMask ≠ expectedType then .error .IllegalType
  else
    match extract_length_v2 buf src with
    | .error e => .error e
    | .ok (chunkLen, p) => .ok (chunkLen, p + chunkLen)

/-- `cbor_value_get_string_length` (cbor.h, bool-returning revision):
`none` models the `false` return for unknown-length strings. -/
def cbor_value_get_string_length (buf : List Nat) (value : CborValue) : Option Nat :=
  if cbor_value_is_length_known value then
    some (cbor_value_extract_int64_helper buf value)
  else none

/-- The chunk loop of the bool-returning `cbor_value_calculate_string_length`,
composed with `add_check_overflow` from src/src/compilersupport_p.h through
the source's `if (!add_check_overflow(total, chunkLen, &total))` test. -/
def calculate_string_length_loop (buf : List Nat) (ty : Nat) :
    Nat → Nat → Nat → Except CborError Nat
  | 0, _, _ => .error .UnexpectedEOF
  | fuel + 1, ptr, total =>
    if ptr = buf.length then .error .UnexpectedEOF
    else if byteAt buf ptr = BreakByte then .ok total
    else
      match copy_chunk buf ty ptr with
      | .error e => .error e
      | .ok (chunkLen, p) =>
        let (added, newTotal) := add_check_overflow total chunkLen
        if added = false then .error .DataTooLarge
        else calculate_string_length_loop buf ty fuel p newTotal

/-- `cbor_value_calculate_string_length` (bool-returning revision). -/
def cbor_value_calculate_string_length_v2 (buf : List Nat) (value : CborValue) :
    Except CborError Nat :=
  match cbor_value_get_string_length buf value with
  | some len => .ok len
  | none => calculate_string_length_loop buf value.type (buf.length + 1) (value.ptr + 1) 0

/-! ## preparse_value of src/src/cborparser.c (early bool-returning revision)

In this revision the `case SimpleTypeInNextByte:` of the inner switch has no
`break` and falls through into `case 28: case 29: case 30:`, which reports
`CborErrorUnknownType`. -/

def preparse_value_early (buf : List Nat) (it : CborValue) :
    Except CborError CborValue :=
  if it.ptr = buf.length then .error .UnexpectedEOF
  else
    let descriptor0 := byteAt buf it.ptr
    let ty := descriptor0 &&& MajorTypeMask
    let descriptor := descriptor0 &&& SmallValueMask
    let it := { it with type := ty, flags := 0, extra := descriptor }
    let step : Except CborError CborValue :=
      if ty >>> MajorTypeShift = NegativeIntegerType then
        .ok { it with flags := it.flags ||| CborIteratorFlag_NegativeInteger }
      else if ty >>> MajorTypeShift = SimpleTypesType then
        if descriptor = FalseValue ∨ descriptor = TrueValue ∨ descriptor = NullValue ∨
            descriptor = UndefinedValue ∨ descriptor = HalfPrecisionFloat ∨
            descriptor = SinglePrecisionFloat ∨ descriptor = DoublePrecisionFloat then
          .ok { it with extra := if descriptor = FalseValue then 0 else it.extra,
                        type := descriptor }
        else if descriptor = SimpleTypeInNextByte then
          if buf.length < it.ptr + 1 then .error .UnexpectedEOF
          else if byteAt buf (it.ptr + 1) < 32 then .error .IllegalSimpleType
          else .error .UnknownType
        else if descriptor = 28 ∨ descriptor = 29 ∨ descriptor = 30 then
          .error .UnknownType
        else if descriptor = Break then .error .UnexpectedBreak
        else .ok it
      else if ty >>> MajorTypeShift = UnsignedIntegerType ∨
          ty >>> MajorTypeShift = TagType then .ok it
      else
        .ok (if descriptor = IndefiniteLength then
              { it with flags := it.flags ||| CborIteratorFlag_UnknownLength }
            else it)
    match step with
    | .error e => .error e
    | .ok it =>
      if descriptor < Value8Bit then .ok it
      else if Value64Bit < descriptor then .error .IllegalNumber
      else
        let bytesNeeded := 2 ^ (descriptor - Value8Bit)
        if buf.length < it.ptr + 1 + bytesNeeded then .error .UnexpectedEOF
        else if descriptor = Value8Bit then
          .ok { it with extra := byteAt buf (it.ptr + 1) }
        else if descriptor = Value16Bit then
          .ok { it with extra := get16 buf (it.ptr + 1) }
        else .ok { it with flags := it.flags ||| CborIteratorFlag_IntegerValueTooLarge }

deriving instance DecidableEq for Except

/-! ## Observation helpers for copy_string results

`cbor_value_copy_string` returns a byte store (a function); the helpers below
project a result so that theorems can state facts about it without comparing
functions for equality. -/

/-- A definite-length chunk on the wire: canonical length head (the bytes
`encode_number` emits) followed by the payload. -/
def chunkEnc (M : Nat) (payload : List Nat) : List Nat :=
  encode_number_buf payload.length M ++ payload

def exceptIsOk {α : Type} (x : Except CborError α) : Bool :=
  match x with
  | .ok _ => true
  | .error _ => false

def copyResultHasStore
    (x : Except CborError (Option (Nat → Nat) × Nat × Option CborValue)) : Bool :=
  match x with
  | .ok (some _, _, _) => true
  | _ => false

def copyResultStore
    (x : Except CborError (Option (Nat → Nat) × Nat × Option CborValue)) : Nat → Nat :=
  match x with
  | .ok (some s, _, _) => s
  | _ => fun _ => 0

def copyResultTotal
    (x : Except CborError (Option (Nat → Nat) × Nat × Option CborValue)) : Nat :=
  match x with
  | .ok (_, t, _) => t
  | _ => 0

/-- The indefinite-length wire form of a chunked string: `M | 31` head,
the encoded chunks, and the break byte. -/
def indefString (M : Nat) (cs : List (List Nat)) : List Nat :=
  (M + IndefiniteLength) :: ((cs.map (chunkEnc M)).flatten ++ [BreakByte])

/-- The definite-length wire form: canonical length head plus payload. -/
def defString (M : Nat) (payload : List Nat) : List Nat :=
  encode_number_buf payload.length M ++ payload

/-! ## Helper lemmas on byte packing -/

theorem beBytes_length (k : Nat) : ∀ n, (beBytes k n).length = k := by
  induction k with
  | zero => intro n; rfl
  | succ k ih =>
    intro n
    simp [beBytes, ih]

theorem byteAt_append_right (xs ys : List Nat) (i : Nat) :
    byteAt (xs ++ ys) (xs.length + i) = byteAt ys i := by
  unfold byteAt
  rw [List.getD_append_right _ _ _ _ (Nat.le_add_right _ _)]
  congr 1
  omega

theorem byteAt_append_left (xs ys : List Nat) (i : Nat) (h : i < xs.length) :
    byteAt (xs ++ ys) i = byteAt xs i := by
  unfold byteAt
  exact List.getD_append _ _ _ _ h

theorem byteAt_cons_zero (a : Nat) (xs : List Nat) : byteAt (a :: xs) 0 = a := rfl

/-- `getBE` only looks at the `k` bytes starting at `p`. -/
theorem getBE_congr (buf₁ buf₂ : List Nat) (p : Nat) (k : Nat)
    (h : ∀ i, i < k → byteAt buf₁ (p + i) = byteAt buf₂ (p + i)) :
    getBE buf₁ p k = getBE buf₂ p k := by
  induction k with
  | zero => rfl
  | succ k ih =>
    unfold getBE
    rw [ih (fun i hi => h i (Nat.lt_succ_of_lt hi)), h k (Nat.lt_succ_self k)]

/-- Reading back the big-endian bytes of `n` recovers `n`. -/
theorem getBE_beBytes_append (k : Nat) : ∀ (n : Nat) (pre post : List Nat),
    n < 2 ^ (8 * k) →
    getBE (pre ++ (beBytes k n ++ post)) pre.length k = n := by
  induction k with
  | zero => intro n pre post hn; simpa [getBE] using (Nat.lt_one_iff.mp (by simpa using hn)).symm
  | succ k ih =>
    intro n pre post hn
    have hdiv : n / 256 < 2 ^ (8 * k) := by
      have h8 : (8 : Nat) * (k + 1) = 8 * k + 8 := by ring
      rw [h8, pow_add] at hn
      exact Nat.div_lt_of_lt_mul (by omega)
    unfold getBE
    have hassoc : pre ++ (beBytes (k + 1) n ++ post) =
        pre ++ (beBytes k (n / 256) ++ (([n % 256] ++ post))) := by
      simp [beBytes]
    rw [hassoc, ih (n / 256) pre ([n % 256] ++ post) hdiv]
    have hlen : pre.length + k = (pre ++ beBytes k (n / 256)).length := by
      simp [beBytes_length]
    have hb : byteAt (pre ++ (beBytes k (n / 256) ++ ([n % 256] ++ post)))
        (pre.length + k) = n % 256 := by
      rw [show pre ++ (beBytes k (n / 256) ++ ([n % 256] ++ post)) =
          (pre ++ beBytes k (n / 256)) ++ ([n % 256] ++ post) by simp, hlen,
        show ((pre ++ beBytes k (n / 256)).length : Nat) =
          (pre ++ beBytes k (n / 256)).length + 0 by omega,
        byteAt_append_right]
      rfl
    rw [hb]
    omega

theorem getBE_beBytes (k n : Nat) (hn : n < 2 ^ (8 * k)) :
    getBE (beBytes k n) 0 k = n := by
  have := getBE_beBytes_append k n [] [] hn
  simpa using this

/-- `encode_number_buf` with the named constants spelled out. -/
theorem encode_number_buf_eq (u major : Nat) :
    encode_number_buf u major =
      if u < 24 then [major + u]
      else if u ≤ 0xff then [major + 24, u]
      else if u ≤ 0xffff then (major + 25) :: beBytes 2 u
      else if u ≤ 0xffffffff then (major + 26) :: beBytes 4 u
      else (major + 27) :: beBytes 8 u := by
  unfold encode_number_buf
  simp only [Value8Bit, Value16Bit, Value32Bit, Value64Bit, UINT8_MAX, UINT16_MAX,
    UINT32_MAX]

theorem encode_number_buf_length_le (u major : Nat) :
    (encode_number_buf u major).length ≤ 9 := by
  rw [encode_number_buf_eq]
  split_ifs <;> simp [beBytes_length]

theorem encode_number_ok (enc : CborEncoder) (u major : Nat)
    (hcap : enc.bytes.length + 9 ≤ enc.cap) :
    encode_number enc u major = .ok ⟨enc.bytes ++ encode_number_buf u major, enc.cap⟩ := by
  have h := encode_number_buf_length_le u major
  unfold encode_number append_to_buffer
  rw [if_neg (by omega)]

/-! ## C2: shortest-form encoding of unsigned integers, lengths and tags -/

/-- C2: for every 64-bit unsigned integer `u`, `cbor_encode_uint` on a
sufficiently large buffer appends exactly 1 byte if `u < 24`, 2 bytes if
`24 ≤ u ≤ 0xFF`, 3 bytes if `u ≤ 0xFFFF`, 5 bytes if `u ≤ 0xFFFFFFFF` and
9 bytes otherwise, laid out as the head byte (`major <<< 5` plus the
additional information) followed by the value in big-endian; string lengths
and tags are emitted through the same shared `encode_number` routine, so the
same shortest-form pattern holds for them. -/
theorem c2_encode_uint_shortest_form (enc : CborEncoder) (u major : Nat)
    (hu : u < 2 ^ 64) (hcap : enc.bytes.length + 9 ≤ enc.cap) :
    encode_number enc u major = .ok ⟨enc.bytes ++ encode_number_buf u major, enc.cap⟩ ∧
    cbor_encode_uint enc u = .ok ⟨enc.bytes ++ encode_number_buf u 0, enc.cap⟩ ∧
    cbor_encode_tag enc u = .ok ⟨enc.bytes ++ encode_number_buf u 0xc0, enc.cap⟩ ∧
    encode_string enc u 0x40 [] =
      .ok ⟨enc.bytes ++ encode_number_buf u 0x40, enc.cap⟩ ∧
    (encode_number_buf u major).length =
      (if u < 24 then 1 else if u ≤ 0xff then 2 else if u ≤ 0xffff then 3
       else if u ≤ 0xffffffff then 5 else 9) ∧
    (u < 24 → encode_number_buf u major = [major + u]) ∧
    (24 ≤ u → u ≤ 0xff → encode_number_buf u major = [major + 24, u]) ∧
    (0xff < u → u ≤ 0xffff →
      encode_number_buf u major = (major + 25) :: beBytes 2 u ∧
      getBE (beBytes 2 u) 0 2 = u) ∧
    (0xffff < u → u ≤ 0xffffffff →
      encode_number_buf u major = (major + 26) :: beBytes 4 u ∧
      getBE (beBytes 4 u) 0 4 = u) ∧
    (0xffffffff < u →
      encode_number_buf u major = (major + 27) :: beBytes 8 u ∧
      getBE (beBytes 8 u) 0 8 = u) := by
  refine ⟨encode_number_ok enc u major hcap, ?_, ?_, ?_, ?_, ?_, ?_, ?_, ?_, ?_⟩
  · rw [show cbor_encode_uint enc u = encode_number enc u 0 from rfl]
    exact encode_number_ok enc u 0 hcap
  · rw [show cbor_encode_tag enc u = encode_number enc u 0xc0 from rfl]
    exact encode_number_ok enc u 0xc0 hcap
  · unfold encode_string
    rw [encode_number_ok enc u 0x40 hcap]
    have h := encode_number_buf_length_le u 0x40
    unfold append_to_buffer
    have h2 : ¬ ((⟨enc.bytes ++ encode_number_buf u 0x40, enc.cap⟩ : CborEncoder).cap <
        (⟨enc.bytes ++ encode_number_buf u 0x40, enc.cap⟩ : CborEncoder).bytes.length +
          ([] : List Nat).length) := by
      simp only [List.length_append, List.length_nil]
      omega
    simp only [if_neg h2, List.append_nil]
  · rw [encode_number_buf_eq]
    split_ifs <;> simp [beBytes_length]
  · intro h
    rw [encode_number_buf_eq, if_pos h]
  · intro h1 h2
    rw [encode_number_buf_eq, if_neg (by omega), if_pos h2]
  · intro h1 h2
    rw [encode_number_buf_eq, if_neg (by omega), if_neg (by omega), if_pos h2]
    exact ⟨rfl, getBE_beBytes 2 u (by omega)⟩
  · intro h1 h2
    rw [encode_number_buf_eq, if_neg (by omega), if_neg (by omega), if_neg (by omega),
      if_pos h2]
    exact ⟨rfl, getBE_beBytes 4 u (by omega)⟩
  · intro h1
    rw [encode_number_buf_eq, if_neg (by omega), if_neg (by omega), if_neg (by omega),
      if_neg (by omega)]
    exact ⟨rfl, getBE_beBytes 8 u (by omega)⟩

/-- C2 witness: the theorem applied at `u = 70000` on an empty encoder of
capacity 16 yields the 5-byte encoding `1A 00 01 11 70`. -/
theorem c2_encode_uint_shortest_form_witness :
    (70000 : Nat) < 2 ^ 64 ∧ ([] : List Nat).length + 9 ≤ 16 ∧
    cbor_encode_uint ⟨[], 16⟩ 70000 = .ok ⟨[0x1a, 0x00, 0x01, 0x11, 0x70], 16⟩ := by
  refine ⟨by norm_num, by simp, ?_⟩
  have h := (c2_encode_uint_shortest_form ⟨[], 16⟩ 70000 0 (by norm_num) (by simp)).2.1
  rw [h]
  rfl

/-! ## C8: cbor_encode_simple_value and the check-user range -/

/-- C8 counterexample: the claim says every `v ∈ [24, 31]` is rejected with
`IllegalSimpleType`, but the source's check is `value >= HalfPrecisionFloat`
(25), so `cbor_encode_simple_value(24)` succeeds and emits the two bytes
`F8 18`. -/
theorem c8_simple_value_24_not_rejected :
    cbor_encode_simple_value ⟨[], 9⟩ 24 = .ok ⟨[0xf8, 0x18], 9⟩ ∧
    cbor_encode_simple_value ⟨[], 9⟩ 24 ≠ .error .IllegalSimpleType := by
  decide

/-- C8 amended: with the check-user option enabled, `cbor_encode_simple_value`
returns `IllegalSimpleType` exactly for `v ∈ [25, 31]` and emits nothing; for
`v < 24` it succeeds with the single byte `E0 + v`, and for `v = 24` as well
as every `v ≥ 32` it succeeds with the two bytes `F8, v`. -/
theorem c8_simple_value_amended (enc : CborEncoder) (v : Nat)
    (hv : v < 256) (hcap : enc.bytes.length + 2 ≤ enc.cap) :
    (25 ≤ v → v ≤ 31 →
      cbor_encode_simple_value enc v = .error .IllegalSimpleType) ∧
    (v < 24 →
      cbor_encode_simple_value enc v = .ok ⟨enc.bytes ++ [0xe0 + v], enc.cap⟩) ∧
    (v = 24 ∨ 32 ≤ v →
      cbor_encode_simple_value enc v = .ok ⟨enc.bytes ++ [0xf8, v], enc.cap⟩) := by
  have hshift : SimpleTypesType <<< MajorTypeShift = 0xe0 := rfl
  refine ⟨?_, ?_, ?_⟩
  · intro h1 h2
    unfold cbor_encode_simple_value
    rw [if_pos]
    exact ⟨h1, h2⟩
  · intro h
    unfold cbor_encode_simple_value
    rw [if_neg (by simp only [HalfPrecisionFloat, Break]; omega), hshift]
    unfold encode_number
    rw [show encode_number_buf v 0xe0 = [0xe0 + v] by
      rw [encode_number_buf_eq, if_pos h]]
    unfold append_to_buffer
    rw [if_neg (by simp only [List.length_cons, List.length_nil]; omega)]
  · intro h
    unfold cbor_encode_simple_value
    rw [if_neg (by simp only [HalfPrecisionFloat, Break]; omega), hshift]
    unfold encode_number
    rw [show encode_number_buf v 0xe0 = [0xf8, v] by
      rw [encode_number_buf_eq, if_neg (by omega), if_pos (by omega)]]
    unfold append_to_buffer
    rw [if_neg (by simp only [List.length_cons, List.length_nil]; omega)]

/-- C8 witness: the amended theorem applied at `v = 100` on an empty encoder. -/
theorem c8_simple_value_amended_witness :
    (100 : Nat) < 256 ∧ ([] : List Nat).length + 2 ≤ 9 ∧
    cbor_encode_simple_value ⟨[], 9⟩ 100 = .ok ⟨[0xf8, 100], 9⟩ := by
  refine ⟨by norm_num, by simp, ?_⟩
  have h := (c8_simple_value_amended ⟨[], 9⟩ 100 (by norm_num) (by simp)).2.2
    (Or.inr (by norm_num))
  simpa using h

/-! ## C1, C3, C7: container traversal of the embedded parser revision

`cbor_value_enter_container` of the embedded cborparser.c revision sets the
child `remaining` to the declared length (no `+ 1` accounting for the
container head, no doubling for maps), and `advance_internal` adds the
decoded head *value* to the byte position for every non-fixed type, including
arrays and maps.  The following theorems exhibit the resulting divergences on
the concrete inputs of the claims. -/

/-- C1: the spec's round-trip scenario `83 01 20 F5` (array of 1, −1, true)
cannot even be parsed: `cbor_value_enter_container` on the root array fails
with `UnexpectedEOF` (the element count 3 is added to the byte position),
although the encoder does produce exactly those bytes from the three items
(array head, `cbor_encode_uint 1`, `cbor_encode_int (-1)`, true = `F5`). -/
theorem c1_roundtrip_parse_fails :
    cbor_parser_init [0x83, 0x01, 0x20, 0xf5] =
      .ok ⟨0, 1, 3, CborArrayType, 0⟩ ∧
    cbor_value_enter_container [0x83, 0x01, 0x20, 0xf5]
      ⟨0, 1, 3, CborArrayType, 0⟩ = .error .UnexpectedEOF ∧
    encode_number ⟨[], 9⟩ 3 (ArrayType <<< MajorTypeShift) = .ok ⟨[0x83], 9⟩ ∧
    cbor_encode_uint ⟨[0x83], 9⟩ 1 = .ok ⟨[0x83, 0x01], 9⟩ ∧
    cbor_encode_int ⟨[0x83, 0x01], 9⟩ (-1) = .ok ⟨[0x83, 0x01, 0x20], 9⟩ ∧
    cbor_encode_simple_value ⟨[0x83, 0x01, 0x20], 9⟩ TrueValue =
      .ok ⟨[0x83, 0x01, 0x20, 0xf5], 9⟩ := by
  refine ⟨by decide, by decide, by decide, by decide, ?_, by decide⟩
  unfold cbor_encode_int
  norm_num
  decide

/-- C3: on the one-pair map `A2 01 02 03 04` (declared length `L = 2`),
`cbor_value_enter_container` leaves the child cursor with `remaining = 1`,
not `2 * L = 4`: the child's counter is the declared pair count minus one,
so each key and each value cannot count as one item. -/
theorem c3_map_remaining_not_doubled :
    cbor_parser_init [0xa2, 0x01, 0x02, 0x03, 0x04] =
      .ok ⟨0, 1, 2, CborMapType, 0⟩ ∧
    cbor_value_enter_container [0xa2, 0x01, 0x02, 0x03, 0x04]
      ⟨0, 1, 2, CborMapType, 0⟩ = .ok ⟨3, 1, 3, CborIntegerType, 0⟩ ∧
    (1 : Nat) ≠ 2 * 2 := by
  decide

/-- C7: on the singleton array `81 00` (declared count `N = 1`), the child
cursor produced by `cbor_value_enter_container` reports `at_end` immediately
(its element was skipped, never pre-parsed), and the first `advance` on it
fails with `AdvancePastEOF` — so it is not possible to perform `N = 1`
successful advances before reaching the end. -/
theorem c7_container_completion_fails :
    cbor_parser_init [0x81, 0x00] = .ok ⟨0, 1, 1, CborArrayType, 0⟩ ∧
    cbor_value_enter_container [0x81, 0x00] ⟨0, 1, 1, CborArrayType, 0⟩ =
      .ok ⟨2, 0, 1, CborInvalidType, 0⟩ ∧
    cbor_value_at_end ⟨2, 0, 1, CborInvalidType, 0⟩ = true ∧
    cbor_value_advance_fixed [0x81, 0x00] ⟨2, 0, 1, CborInvalidType, 0⟩ =
      .error .AdvancePastEOF := by
  decide

/-! ## C4: the overflow check composed with its call sites -/

/-- C4: `add_check_overflow` of src/src/compilersupport_p.h returns **true on
overflow**, but the cited call sites test `!add_check_overflow(...)`, so
`cbor_value_calculate_string_length` reports `DataTooLarge` exactly when the
chunk-length sum does **not** overflow: on the two-chunk indefinite byte
string `5F 41 61 FF` the total is 1 (no overflow), yet the function returns
`DataTooLarge`. -/
theorem c4_overflow_check_inverted :
    add_check_overflow 0 1 = (false, 1) ∧
    (0 + 1 : Nat) < 2 ^ 64 ∧
    cbor_value_calculate_string_length_v2 [0x5f, 0x41, 0x61, 0xff]
      ⟨0, 1, 31, CborByteStringType, CborIteratorFlag_UnknownLength⟩ =
      .error .DataTooLarge := by
  refine ⟨by decide, by norm_num, by decide⟩

/-! ## C5: major 7 with additional information 24 -/

/-- C5: in src/src/cborparser.c the `case SimpleTypeInNextByte:` has no
`break` and falls through into the `case 28/29/30` arm, so the well-formed
input `F8 20` (simple value 32) is rejected with `UnknownType` instead of
being reported as a simple value; the sibling CborError-returning revision
implements the claimed behaviour (`F8 20` → simple value 32, and `F8 10` →
`IllegalSimpleType` under strict checks). -/
theorem c5_simple_in_next_byte_falls_through :
    preparse_value_early [0xf8, 0x20] ⟨0, 1, 0, 0, 0⟩ = .error .UnknownType ∧
    preparse_value [0xf8, 0x20] ⟨0, 1, 0, 0, 0⟩ =
      .ok ⟨0, 1, 0x20, CborSimpleType, 0⟩ ∧
    preparse_value [0xf8, 0x10] ⟨0, 1, 0, 0, 0⟩ = .error .IllegalSimpleType ∧
    preparse_value_early [0xf8, 0x10] ⟨0, 1, 0, 0, 0⟩ =
      .error .IllegalSimpleType := by
  decide

/-! ## C6: cbor_value_get_int64 on negative integers -/

/-- C6: parsing the negative-integer item `20` (raw payload `n = 0`) marks
the cursor with the NegativeInteger flag and reports it as an integer, but
`cbor_value_get_int64` returns the raw payload reinterpreted as `int64_t`
— here `0` — instead of `-1 - n = -1`. -/
theorem c6_get_int64_missing_negation :
    cbor_parser_init [0x20] =
      .ok ⟨0, 1, 0, CborIntegerType, CborIteratorFlag_NegativeInteger⟩ ∧
    (CborIteratorFlag_NegativeInteger &&& CborIteratorFlag_NegativeInteger ≠ 0) ∧
    cbor_value_get_int64 [0x20]
      ⟨0, 1, 0, CborIntegerType, CborIteratorFlag_NegativeInteger⟩ = 0 ∧
    (0 : Int) ≠ -1 - 0 := by
  refine ⟨by decide, by decide, by decide, by norm_num⟩

/-! ## Lemmas on the memcpy model -/

theorem writeRange_nil (store : Nat → Nat) (off : Nat) : writeRange store off [] = store := by
  funext i
  simp [writeRange]

theorem writeRange_out (store : Nat → Nat) (off : Nat) (data : List Nat) (i : Nat)
    (h : i < off ∨ off + data.length ≤ i) : writeRange store off data i = store i := by
  unfold writeRange
  rw [if_neg (by omega)]

theorem writeRange_in (store : Nat → Nat) (off : Nat) (data : List Nat) (i : Nat)
    (h1 : off ≤ i) (h2 : i < off + data.length) :
    writeRange store off data i = data.getD (i - off) 0 := by
  unfold writeRange
  rw [if_pos ⟨h1, h2⟩]

theorem writeRange_append (store : Nat → Nat) (off : Nat) (a b : List Nat) :
    writeRange (writeRange store off a) (off + a.length) b =
      writeRange store off (a ++ b) := by
  funext i
  by_cases h1 : i < off
  · rw [writeRange_out _ _ _ _ (Or.inl (by omega)),
      writeRange_out _ _ _ _ (Or.inl h1), writeRange_out _ _ _ _ (Or.inl h1)]
  · by_cases h2 : i < off + a.length
    · rw [writeRange_out _ _ _ _ (Or.inl h2), writeRange_in _ _ _ _ (by omega) h2,
        writeRange_in _ _ _ _ (by omega) (by simp only [List.length_append]; omega)]
      rw [List.getD_append _ _ _ _ (by omega)]
    · by_cases h3 : i < off + a.length + b.length
      · rw [writeRange_in _ _ _ _ (by omega) (by omega),
          writeRange_in _ _ _ _ (by omega) (by simp only [List.length_append]; omega)]
        rw [List.getD_append_right _ _ _ _ (by omega)]
        congr 1
        omega
      · rw [writeRange_out _ _ _ _ (Or.inr (by omega)),
          writeRange_out _ _ _ _ (Or.inr (by omega)),
          writeRange_out _ _ _ _ (Or.inr (by simp only [List.length_append]; omega))]

theorem readOut_length (store : Nat → Nat) (n : Nat) : (readOut store n).length = n := by
  simp [readOut]

theorem readOut_writeRange_self (store : Nat → Nat) (data : List Nat) :
    readOut (writeRange store 0 data) data.length = data := by
  apply List.ext_getElem (by simp [readOut])
  intro i h1 h2
  simp only [readOut, List.getElem_map, List.getElem_range]
  rw [writeRange_in _ _ _ _ (Nat.zero_le _) (by omega)]
  simp only [Nat.sub_zero]
  exact List.getD_eq_getElem _ _ _

theorem sliceBytes_length (buf : List Nat) (p n : Nat) :
    (sliceBytes buf p n).length = n := by
  simp [sliceBytes]

theorem sliceBytes_exact (pre mid post : List Nat) :
    sliceBytes (pre ++ (mid ++ post)) pre.length mid.length = mid := by
  apply List.ext_getElem (by simp [sliceBytes])
  intro i h1 h2
  simp only [sliceBytes, List.getElem_map, List.getElem_range]
  rw [byteAt_append_right, byteAt_append_left _ _ _ (by simpa [sliceBytes] using h1)]
  exact List.getD_eq_getElem _ _ _

/-! ## Decoding canonical length heads -/

theorem head_and_mask (M a : Nat) (hM : M = 0x40 ∨ M = 0x60) (ha : a < 32) :
    (M + a) &&& SmallValueMask = a ∧ (M + a) &&& MajorTypeMask = M ∧
    M + a ≠ BreakByte := by
  rcases hM with rfl | rfl <;>
    (interval_cases a <;> exact ⟨by decide, by decide, by decide⟩)

theorem encode_number_buf_ne_nil (L M : Nat) : encode_number_buf L M ≠ [] := by
  rw [encode_number_buf_eq]
  split_ifs <;> simp

theorem extract_length_of_number (buf : List Nat) (p v q : Nat)
    (h : extract_number buf p = .ok (v, q)) (hv : v < 2 ^ 64) :
    extract_length buf p = .ok (v, q) := by
  unfold extract_length
  rw [h]
  show (if v ≠ v % 2 ^ 64 then (.error .DataTooLarge : Except CborError (Nat × Nat))
    else .ok (v % 2 ^ 64, q)) = .ok (v, q)
  rw [if_neg (show ¬ (v ≠ v % 2 ^ 64) by omega)]
  rw [Nat.mod_eq_of_lt hv]

/-- Decoding the head `encode_number` emits for a length `L` recovers `L`, and
the head byte has the right major bits and is not a break byte. -/
theorem extract_length_encode (M L : Nat) (hM : M = 0x40 ∨ M = 0x60)
    (hL : L < 2 ^ 64) (pre post : List Nat) :
    extract_length (pre ++ (encode_number_buf L M ++ post)) pre.length =
      .ok (L, pre.length + (encode_number_buf L M).length) ∧
    byteAt (pre ++ (encode_number_buf L M ++ post)) pre.length &&& MajorTypeMask = M ∧
    byteAt (pre ++ (encode_number_buf L M ++ post)) pre.length ≠ BreakByte := by
  rw [encode_number_buf_eq]
  by_cases h1 : L < 24
  · rw [if_pos h1]
    have hb : byteAt (pre ++ ([M + L] ++ post)) pre.length = M + L := by
      rw [show pre.length = pre.length + 0 by omega, byteAt_append_right]
      rfl
    have hm := head_and_mask M L hM (by omega)
    refine ⟨?_, by rw [hb]; exact hm.2.1, by rw [hb]; exact hm.2.2⟩
    refine extract_length_of_number _ _ _ _ ?_ hL
    unfold extract_number
    rw [hb, hm.1]
    rw [if_pos (by simp only [Value8Bit]; omega)]
    simp
  · rw [if_neg h1]
    by_cases h2 : L ≤ 0xff
    · rw [if_pos h2]
      have hb : byteAt (pre ++ ([M + 24, L] ++ post)) pre.length = M + 24 := by
        rw [show pre.length = pre.length + 0 by omega, byteAt_append_right]
        rfl
      have hb1 : byteAt (pre ++ ([M + 24, L] ++ post)) (pre.length + 1) = L := by
        rw [byteAt_append_right]
        rfl
      have hm := head_and_mask M 24 hM (by omega)
      refine ⟨?_, by rw [hb]; exact hm.2.1, by rw [hb]; exact hm.2.2⟩
      refine extract_length_of_number _ _ _ _ ?_ hL
      unfold extract_number
      rw [hb, hm.1]
      rw [if_neg (by simp [Value8Bit]), if_neg (by simp [Value8Bit, Value64Bit])]
      rw [if_neg (show ¬ ((pre ++ ([M + 24, L] ++ post)).length <
          pre.length + 1 + 2 ^ (24 - Value8Bit)) by
        simp only [Value8Bit, List.length_append, List.length_cons]
        norm_num
        omega)]
      rw [if_pos (by simp [Value8Bit])]
      rw [hb1]
      simp [Value8Bit]
    · rw [if_neg h2]
      by_cases h3 : L ≤ 0xffff
      · rw [if_pos h3]
        have hb : byteAt (pre ++ (((M + 25) :: beBytes 2 L) ++ post)) pre.length =
            M + 25 := by
          rw [show pre.length = pre.length + 0 by omega, byteAt_append_right]
          rfl
        have hget : get16 (pre ++ (((M + 25) :: beBytes 2 L) ++ post))
            (pre.length + 1) = L := by
          unfold get16
          rw [show pre.length + 1 = (pre ++ [M + 25]).length by simp,
            show pre ++ (((M + 25) :: beBytes 2 L) ++ post) =
              (pre ++ [M + 25]) ++ (beBytes 2 L ++ post) by simp]
          exact getBE_beBytes_append 2 L _ _ (by norm_num; omega)
        have hm := head_and_mask M 25 hM (by omega)
        refine ⟨?_, by rw [hb]; exact hm.2.1, by rw [hb]; exact hm.2.2⟩
        refine extract_length_of_number _ _ _ _ ?_ hL
        unfold extract_number
        rw [hb, hm.1]
        rw [if_neg (by simp [Value8Bit]), if_neg (by simp [Value8Bit, Value64Bit])]
        rw [if_neg (show ¬ ((pre ++ (((M + 25) :: beBytes 2 L) ++ post)).length <
            pre.length + 1 + 2 ^ (25 - Value8Bit)) by
          simp only [Value8Bit, List.length_append, List.length_cons, beBytes_length]
          norm_num
          omega)]
        rw [if_neg (by simp [Value8Bit]), if_pos (by simp [Value8Bit])]
        rw [hget]
        simp [Value8Bit, beBytes_length]
      · rw [if_neg h3]
        by_cases h4 : L ≤ 0xffffffff
        · rw [if_pos h4]
          have hb : byteAt (pre ++ (((M + 26) :: beBytes 4 L) ++ post)) pre.length =
              M + 26 := by
            rw [show pre.length = pre.length + 0 by omega, byteAt_append_right]
            rfl
          have hget : get32 (pre ++ (((M + 26) :: beBytes 4 L) ++ post))
              (pre.length + 1) = L := by
            unfold get32
            rw [show pre.length + 1 = (pre ++ [M + 26]).length by simp,
              show pre ++ (((M + 26) :: beBytes 4 L) ++ post) =
                (pre ++ [M + 26]) ++ (beBytes 4 L ++ post) by simp]
            exact getBE_beBytes_append 4 L _ _ (by norm_num; omega)
          have hm := head_and_mask M 26 hM (by omega)
          refine ⟨?_, by rw [hb]; exact hm.2.1, by rw [hb]; exact hm.2.2⟩
          refine extract_length_of_number _ _ _ _ ?_ hL
          unfold extract_number
          rw [hb, hm.1]
          rw [if_neg (by simp [Value8Bit]), if_neg (by simp [Value8Bit, Value64Bit])]
          rw [if_neg (show ¬ ((pre ++ (((M + 26) :: beBytes 4 L) ++ post)).length <
              pre.length + 1 + 2 ^ (26 - Value8Bit)) by
            simp only [Value8Bit, List.length_append, List.length_cons, beBytes_length]
            norm_num
            omega)]
          rw [if_neg (by simp [Value8Bit]), if_neg (by simp [Value8Bit]),
            if_pos (by simp [Value8Bit])]
          rw [hget]
          simp [Value8Bit, beBytes_length]
        · rw [if_neg h4]
          have hb : byteAt (pre ++ (((M + 27) :: beBytes 8 L) ++ post)) pre.length =
              M + 27 := by
            rw [show pre.length = pre.length + 0 by omega, byteAt_append_right]
            rfl
          have hget : get64 (pre ++ (((M + 27) :: beBytes 8 L) ++ post))
              (pre.length + 1) = L := by
            unfold get64
            rw [show pre.length + 1 = (pre ++ [M + 27]).length by simp,
              show pre ++ (((M + 27) :: beBytes 8 L) ++ post) =
                (pre ++ [M + 27]) ++ (beBytes 8 L ++ post) by simp]
            exact getBE_beBytes_append 8 L _ _ (by norm_num; omega)
          have hm := head_and_mask M 27 hM (by omega)
          refine ⟨?_, by rw [hb]; exact hm.2.1, by rw [hb]; exact hm.2.2⟩
          refine extract_length_of_number _ _ _ _ ?_ hL
          unfold extract_number
          rw [hb, hm.1]
          rw [if_neg (by simp [Value8Bit]), if_neg (by simp [Value8Bit, Value64Bit])]
          rw [if_neg (show ¬ ((pre ++ (((M + 27) :: beBytes 8 L) ++ post)).length <
              pre.length + 1 + 2 ^ (27 - Value8Bit)) by
            simp only [Value8Bit, List.length_append, List.length_cons, beBytes_length]
            norm_num
            omega)]
          rw [if_neg (by simp [Value8Bit]), if_neg (by simp [Value8Bit]),
            if_neg (by simp [Value8Bit])]
          rw [hget]
          simp [Value8Bit, beBytes_length]

theorem add_check_overflow_fallback_ok (a b : Nat) (h : a + b ≤ SIZE_MAX) :
    add_check_overflow_fallback a b = (true, a + b) := by
  unfold add_check_overflow_fallback
  rw [decide_eq_true (by simp only [SIZE_MAX] at *; omega),
    Nat.mod_eq_of_lt (by simp only [SIZE_MAX] at *; omega)]

theorem copy_loop_chunks (M : Nat) (hM : M = 0x40 ∨ M = 0x60) (buflen : Nat) :
    ∀ (cs : List (List Nat)) (pre rest : List Nat) (total₀ fuel : Nat)
      (buffer : Option (Nat → Nat)),
      total₀ + (cs.flatten).length ≤ SIZE_MAX →
      (buffer.isSome = true → total₀ + (cs.flatten).length ≤ buflen) →
      cs.length + 1 ≤ fuel →
      copy_string_loop (pre ++ ((cs.map (chunkEnc M)).flatten ++ BreakByte :: rest)) M
        buflen fuel pre.length total₀ buffer =
        .ok (buffer.map (fun s => writeRange s total₀ cs.flatten),
             total₀ + (cs.flatten).length,
             pre.length + ((cs.map (chunkEnc M)).flatten).length + 1) := by
  intro cs
  induction cs with
  | nil =>
    intro pre rest total₀ fuel buffer hsz hbl hfuel
    match fuel, hfuel with
    | f + 1, _ =>
    simp only [List.map_nil, List.flatten_nil, List.nil_append, List.length_nil,
      Nat.add_zero]
    simp only [copy_string_loop]
    rw [if_neg (by simp only [List.length_append, List.length_cons]; omega)]
    rw [if_pos (by
      rw [show pre.length = pre.length + 0 by omega, byteAt_append_right]
      rfl)]
    cases buffer <;> simp [writeRange_nil]
  | cons c cs ih =>
    intro pre rest total₀ fuel buffer hsz hbl hfuel
    match fuel, hfuel with
    | f + 1, hfuel =>
    have hjoin : ((c :: cs).flatten).length = c.length + (cs.flatten).length := by simp
    have hcl : c.length < 2 ^ 64 := by
      have h2 : SIZE_MAX < 2 ^ 64 := by norm_num [SIZE_MAX]
      rw [hjoin] at hsz
      omega
    have hbuf : pre ++ (((c :: cs).map (chunkEnc M)).flatten ++ BreakByte :: rest) =
        pre ++ (encode_number_buf c.length M ++
          (c ++ ((cs.map (chunkEnc M)).flatten ++ BreakByte :: rest))) := by
      simp [chunkEnc]
    rw [hbuf]
    have hext := extract_length_encode M c.length hM hcl pre
      (c ++ ((cs.map (chunkEnc M)).flatten ++ BreakByte :: rest))
    simp only [copy_string_loop]
    rw [if_neg (by
      simp only [List.length_append, List.length_cons]
      omega)]
    rw [if_neg (by
      intro hcontra
      exact hext.2.2 hcontra)]
    rw [if_neg (by
      intro hcontra
      exact hcontra hext.2.1)]
    rw [hext.1]
    have hadd : add_check_overflow_fallback total₀ c.length = (true, total₀ + c.length) :=
      add_check_overflow_fallback_ok total₀ c.length (by rw [hjoin] at hsz; omega)
    simp only [hadd]
    have hb2 : pre ++ (encode_number_buf c.length M ++
        (c ++ ((cs.map (chunkEnc M)).flatten ++ BreakByte :: rest))) =
        (pre ++ encode_number_buf c.length M) ++
          (c ++ ((cs.map (chunkEnc M)).flatten ++ BreakByte :: rest)) := by
      simp
    have hslice : sliceBytes (pre ++ (encode_number_buf c.length M ++
        (c ++ ((cs.map (chunkEnc M)).flatten ++ BreakByte :: rest))))
        (pre.length + (encode_number_buf c.length M).length) c.length = c := by
      rw [hb2, show pre.length + (encode_number_buf c.length M).length =
        (pre ++ encode_number_buf c.length M).length by simp]
      exact sliceBytes_exact _ _ _
    have hb3 : pre ++ (encode_number_buf c.length M ++
        (c ++ ((cs.map (chunkEnc M)).flatten ++ BreakByte :: rest))) =
        (pre ++ chunkEnc M c) ++ ((cs.map (chunkEnc M)).flatten ++ BreakByte :: rest) := by
      simp [chunkEnc]
    have hpos : pre.length + (encode_number_buf c.length M).length + c.length =
        (pre ++ chunkEnc M c).length := by
      simp [chunkEnc]
      omega
    have hszr : (total₀ + c.length) + (cs.flatten).length ≤ SIZE_MAX := by
      rw [hjoin] at hsz
      omega
    have hfr : cs.length + 1 ≤ f := by
      simp only [List.length_cons] at hfuel
      omega
    cases buffer with
    | none =>
      rw [if_neg (show ¬ (true = false) by simp)]
      show copy_string_loop
          (pre ++ (encode_number_buf c.length M ++
            (c ++ ((cs.map (chunkEnc M)).flatten ++ BreakByte :: rest)))) M buflen f
          (pre.length + (encode_number_buf c.length M).length + c.length)
          (total₀ + c.length) none =
        .ok (Option.map (fun s => writeRange s total₀ ((c :: cs).flatten)) none,
          total₀ + ((c :: cs).flatten).length,
          pre.length + (((c :: cs).map (chunkEnc M)).flatten).length + 1)
      rw [hb3, hpos]
      rw [ih (pre ++ chunkEnc M c) rest (total₀ + c.length) f none hszr
        (by intro hcontra; simp at hcontra) hfr]
      refine congrArg Except.ok ?_
      refine Prod.ext rfl (Prod.ext ?_ ?_)
      · show (total₀ + c.length) + (cs.flatten).length = total₀ + ((c :: cs).flatten).length
        rw [hjoin]
        omega
      · show (pre ++ chunkEnc M c).length + ((cs.map (chunkEnc M)).flatten).length + 1 =
          pre.length + (((c :: cs).map (chunkEnc M)).flatten).length + 1
        simp [chunkEnc]
        omega
    | some s =>
      rw [if_neg (show ¬ (true = false) by simp)]
      show (if buflen < total₀ + c.length then
          (.error .OutOfMemory : Except CborError (Option (Nat → Nat) × Nat × Nat))
        else copy_string_loop
          (pre ++ (encode_number_buf c.length M ++
            (c ++ ((cs.map (chunkEnc M)).flatten ++ BreakByte :: rest)))) M buflen f
          (pre.length + (encode_number_buf c.length M).length + c.length)
          (total₀ + c.length)
          (some (writeRange s total₀ (sliceBytes
            (pre ++ (encode_number_buf c.length M ++
              (c ++ ((cs.map (chunkEnc M)).flatten ++ BreakByte :: rest))))
            (pre.length + (encode_number_buf c.length M).length) c.length)))) =
        .ok (Option.map (fun t => writeRange t total₀ ((c :: cs).flatten)) (some s),
          total₀ + ((c :: cs).flatten).length,
          pre.length + (((c :: cs).map (chunkEnc M)).flatten).length + 1)
      rw [if_neg (by
        have hbd := hbl rfl
        rw [hjoin] at hbd
        omega)]
      rw [hslice, hb3, hpos]
      rw [ih (pre ++ chunkEnc M c) rest (total₀ + c.length) f
        (some (writeRange s total₀ c)) hszr
        (by
          intro _
          have hbd := hbl rfl
          rw [hjoin] at hbd
          omega) hfr]
      refine congrArg Except.ok ?_
      refine Prod.ext ?_ (Prod.ext ?_ ?_)
      · show some (writeRange (writeRange s total₀ c) (total₀ + c.length) cs.flatten) =
          some (writeRange s total₀ ((c :: cs).flatten))
        rw [writeRange_append, List.flatten_cons]
      · show (total₀ + c.length) + (cs.flatten).length = total₀ + ((c :: cs).flatten).length
        rw [hjoin]
        omega
      · show (pre ++ chunkEnc M c).length + ((cs.map (chunkEnc M)).flatten).length + 1 =
          pre.length + (((c :: cs).map (chunkEnc M)).flatten).length + 1
        simp [chunkEnc]
        omega

theorem length_le_chunks_flatten (M : Nat) (cs : List (List Nat)) :
    cs.length ≤ ((cs.map (chunkEnc M)).flatten).length := by
  induction cs with
  | nil => simp
  | cons c cs ih =>
    have hpos : 0 < (chunkEnc M c).length := by
      have hne := List.length_pos.mpr (encode_number_buf_ne_nil c.length M)
      simp only [chunkEnc, List.length_append]
      omega
    simp only [List.map_cons, List.flatten_cons, List.length_append, List.length_cons]
    omega

theorem parser_init_indefinite_string (M : Nat) (hM : M = 0x40 ∨ M = 0x60)
    (tail : List Nat) :
    cbor_parser_init ((M + 31) :: tail) =
      .ok ⟨0, 1, 31, M, CborIteratorFlag_UnknownLength⟩ := by
  rcases hM with rfl | rfl
  · unfold cbor_parser_init preparse_value
    rw [if_neg (by simp)]
    rw [show byteAt ((64 + 31 : Nat) :: tail)
        ({ ptr := 0, remaining := 1, extra := 0, type := 0, flags := 0 } : CborValue).ptr = 95
      from rfl]
    rw [if_pos (by decide)]
    decide
  · unfold cbor_parser_init preparse_value
    rw [if_neg (by simp)]
    rw [show byteAt ((96 + 31 : Nat) :: tail)
        ({ ptr := 0, remaining := 1, extra := 0, type := 0, flags := 0 } : CborValue).ptr = 127
      from rfl]
    rw [if_pos (by decide)]
    decide

theorem is_length_known_flags (p r e t fl : Nat) :
    cbor_value_is_length_known ⟨p, r, e, t, fl⟩ =
      decide (fl &&& CborIteratorFlag_UnknownLength = 0) := rfl


theorem copy_string_indefString (M : Nat) (hM : M = 0x40 ∨ M = 0x60)
    (cs : List (List Nat)) (s : Nat → Nat)
    (hsz : (cs.flatten).length ≤ SIZE_MAX) :
    cbor_value_copy_string (indefString M cs)
      ⟨0, 1, 31, M, CborIteratorFlag_UnknownLength⟩
      (some s) (cs.flatten).length false =
      .ok (some (writeRange s 0 cs.flatten), (cs.flatten).length, none) ∧
    cbor_value_calculate_string_length (indefString M cs)
      ⟨0, 1, 31, M, CborIteratorFlag_UnknownLength⟩ = .ok (cs.flatten).length := by
  have hfuel : cs.length + 1 ≤ (indefString M cs).length + 1 := by
    have := length_le_chunks_flatten M cs
    simp only [indefString, List.length_cons, List.length_append]
    omega
  have hloop : ∀ (buffer : Option (Nat → Nat)) (buflen : Nat),
      (buffer.isSome = true → (cs.flatten).length ≤ buflen) →
      copy_string_loop (indefString M cs) M buflen ((indefString M cs).length + 1)
        (0 + 1) 0 buffer =
        .ok (buffer.map (fun t => writeRange t 0 cs.flatten), (cs.flatten).length,
          [M + IndefiniteLength].length + ((cs.map (chunkEnc M)).flatten).length + 1) := by
    intro buffer buflen hbl
    have h := copy_loop_chunks M hM buflen cs [M + IndefiniteLength] [] 0
      ((indefString M cs).length + 1) buffer (by omega) (by simpa using hbl) hfuel
    have hb : [M + IndefiniteLength] ++
        ((cs.map (chunkEnc M)).flatten ++ BreakByte :: []) = indefString M cs := by
      simp [indefString]
    rw [hb] at h
    simpa using h
  constructor
  · unfold cbor_value_copy_string
    rw [if_neg (by rw [is_length_known_flags]; decide)]
    rw [hloop (some s) (cs.flatten).length (by intro _; omega)]
    unfold copy_string_finish
    simp
  · unfold cbor_value_calculate_string_length cbor_value_copy_string
    rw [if_neg (by rw [is_length_known_flags]; decide)]
    rw [hloop none 0 (by intro hcontra; simp at hcontra)]
    unfold copy_string_finish
    simp

theorem copy_string_defString (M : Nat) (hM : M = 0x40 ∨ M = 0x60)
    (p : List Nat) (s : Nat → Nat) (e f : Nat)
    (hp : p.length < 2 ^ 64) (hf : f &&& CborIteratorFlag_UnknownLength = 0) :
    cbor_value_copy_string (defString M p) ⟨0, 1, e, M, f⟩
      (some s) p.length false =
      .ok (some (writeRange s 0 p), p.length, none) := by
  have hext := (extract_length_encode M p.length hM hp [] p).1
  have hext2 : extract_length (defString M p) 0 =
      .ok (p.length, (encode_number_buf p.length M).length) := by
    have hb : ([] : List Nat) ++ (encode_number_buf p.length M ++ p) =
        defString M p := by simp [defString]
    rw [hb] at hext
    simpa using hext
  have hslice : sliceBytes (defString M p) (encode_number_buf p.length M).length
      p.length = p := by
    have := sliceBytes_exact (encode_number_buf p.length M) p []
    simpa [defString] using this
  unfold cbor_value_copy_string
  rw [if_pos (by rw [is_length_known_flags, hf]; decide)]
  rw [hext2]
  show (if p.length < p.length then (.error .OutOfMemory :
      Except CborError (Option (Nat → Nat) × Nat × Option CborValue))
    else copy_string_finish (defString M p) ⟨0, 1, e, M, f⟩ p.length false
      (some (writeRange s 0 (sliceBytes (defString M p)
        (encode_number_buf p.length M).length p.length)))
      ((encode_number_buf p.length M).length + p.length) p.length) = _
  rw [if_neg (by omega), hslice]
  unfold copy_string_finish
  simp

/-! ## C9: chunked strings extract to the concatenation of their chunks -/

/-- C9: for any chunks of the same string major type, extracting the
indefinite-length form yields the concatenation of the chunk payloads — the
same bytes and the same total as the single definite-length string over the
concatenation; in particular `7F 63 48 65 6C 62 6C 6F FF` has calculated
length 5 and copies the bytes of "Hello". -/
theorem c9_chunked_string_equivalence (M : Nat) (cs : List (List Nat))
    (store₁ store₂ : Nat → Nat) (e f : Nat)
    (hM : M = CborByteStringType ∨ M = CborTextStringType)
    (htot : (cs.flatten).length ≤ SIZE_MAX)
    (hf : f &&& CborIteratorFlag_UnknownLength = 0) :
    cbor_parser_init (indefString M cs) =
      .ok ⟨0, 1, 31, M, CborIteratorFlag_UnknownLength⟩ ∧
    cbor_value_calculate_string_length (indefString M cs)
      ⟨0, 1, 31, M, CborIteratorFlag_UnknownLength⟩ = .ok (cs.flatten).length ∧
    cbor_value_copy_string (indefString M cs)
      ⟨0, 1, 31, M, CborIteratorFlag_UnknownLength⟩ (some store₁)
      (cs.flatten).length false =
      .ok (some (writeRange store₁ 0 cs.flatten), (cs.flatten).length, none) ∧
    cbor_value_copy_string (defString M cs.flatten) ⟨0, 1, e, M, f⟩ (some store₂)
      (cs.flatten).length false =
      .ok (some (writeRange store₂ 0 cs.flatten), (cs.flatten).length, none) ∧
    readOut (writeRange store₁ 0 cs.flatten) (cs.flatten).length = cs.flatten ∧
    readOut (writeRange store₂ 0 cs.flatten) (cs.flatten).length = cs.flatten ∧
    cbor_parser_init [0x7f, 0x63, 0x48, 0x65, 0x6c, 0x62, 0x6c, 0x6f, 0xff] =
      .ok ⟨0, 1, 31, CborTextStringType, CborIteratorFlag_UnknownLength⟩ ∧
    cbor_value_calculate_string_length [0x7f, 0x63, 0x48, 0x65, 0x6c, 0x62, 0x6c, 0x6f, 0xff]
      ⟨0, 1, 31, CborTextStringType, CborIteratorFlag_UnknownLength⟩ = .ok 5 ∧
    copyResultTotal (cbor_value_copy_string
      [0x7f, 0x63, 0x48, 0x65, 0x6c, 0x62, 0x6c, 0x6f, 0xff]
      ⟨0, 1, 31, CborTextStringType, CborIteratorFlag_UnknownLength⟩
      (some (fun _ => 0)) 5 false) = 5 ∧
    readOut (copyResultStore (cbor_value_copy_string
      [0x7f, 0x63, 0x48, 0x65, 0x6c, 0x62, 0x6c, 0x6f, 0xff]
      ⟨0, 1, 31, CborTextStringType, CborIteratorFlag_UnknownLength⟩
      (some (fun _ => 0)) 5 false)) 5 = [0x48, 0x65, 0x6c, 0x6c, 0x6f] := by
  have hidef := copy_string_indefString M hM cs store₁ htot
  have hp : (cs.flatten).length < 2 ^ 64 := by
    simp only [SIZE_MAX] at htot
    omega
  refine ⟨?_, hidef.2, hidef.1,
    copy_string_defString M hM cs.flatten store₂ e f hp hf,
    readOut_writeRange_self store₁ cs.flatten,
    readOut_writeRange_self store₂ cs.flatten,
    by decide, by decide, by decide, by decide⟩
  exact parser_init_indefinite_string M hM _

/-- C9 witness: the theorem applied to a single one-byte chunk `[7]` of a
byte string. -/
theorem c9_chunked_string_equivalence_witness :
    ((0x40 : Nat) = CborByteStringType ∨ (0x40 : Nat) = CborTextStringType) ∧
    (([[7]] : List (List Nat)).flatten).length ≤ SIZE_MAX ∧
    ((0 : Nat) &&& CborIteratorFlag_UnknownLength = 0) ∧
    cbor_value_calculate_string_length (indefString 0x40 [[7]])
      ⟨0, 1, 31, 0x40, CborIteratorFlag_UnknownLength⟩ = .ok 1 := by
  refine ⟨Or.inl rfl, by decide, by decide, ?_⟩
  have h := (c9_chunked_string_equivalence 0x40 [[7]] (fun _ => 0) (fun _ => 0) 0 0
    (Or.inl rfl) (by decide) (by decide)).2.1
  simpa using h

theorem extract_length_lt (buf : List Nat) (p len q : Nat)
    (h : extract_length buf p = .ok (len, q)) : len < 2 ^ 64 := by
  unfold extract_length at h
  split at h
  · exact absurd h (by simp)
  · simp only [ne_eq] at h
    split at h
    · exact absurd h (by simp)
    · simp only [Except.ok.injEq, Prod.mk.injEq] at h
      obtain ⟨h1, _⟩ := h
      rw [← h1]
      exact Nat.mod_lt _ (by norm_num)

theorem copy_loop_writes (buf : List Nat) (ty buflen : Nat) :
    ∀ (fuel ptr total₀ : Nat) (store₀ : Nat → Nat)
      (out : Option (Nat → Nat)) (total₁ p₁ : Nat),
      copy_string_loop buf ty buflen fuel ptr total₀ (some store₀) =
        .ok (out, total₁, p₁) →
      ∃ store₁, out = some store₁ ∧ total₀ ≤ total₁ ∧
        ∀ i, i < total₀ ∨ total₁ ≤ i → store₁ i = store₀ i := by
  intro fuel
  induction fuel with
  | zero =>
    intro ptr total₀ store₀ out total₁ p₁ h
    exact absurd h (by simp [copy_string_loop])
  | succ f ih =>
    intro ptr total₀ store₀ out total₁ p₁ h
    simp only [copy_string_loop] at h
    split at h
    · exact absurd h (by simp)
    · split at h
      · simp only [Except.ok.injEq, Prod.mk.injEq] at h
        obtain ⟨h1, h2, _⟩ := h
        exact ⟨store₀, h1.symm, by omega, fun i _ => rfl⟩
      · split at h
        · exact absurd h (by simp)
        · split at h
          · exact absurd h (by simp)
          · rename_i chunkLen pp heq
            split at h
            · exact absurd h (by simp)
            · rename_i hfits
              split at h
              · exact absurd h (by simp)
              · rename_i hroom
                obtain ⟨store₁, hout, hle, hconf⟩ := ih _ _ _ _ _ _ h
                have hck : chunkLen < 2 ^ 64 := extract_length_lt buf ptr chunkLen pp heq
                have hfits2 : (add_check_overflow_fallback total₀ chunkLen).1 = true := by
                  cases hb : (add_check_overflow_fallback total₀ chunkLen).1 with
                  | false => exact absurd hb hfits
                  | true => rfl
                have hbound : total₀ ≤ SIZE_MAX - chunkLen := by
                  have := of_decide_eq_true (by
                    simpa [add_check_overflow_fallback] using hfits2)
                  exact this
                have hnt : (add_check_overflow_fallback total₀ chunkLen).2 =
                    total₀ + chunkLen := by
                  simp only [add_check_overflow_fallback]
                  exact Nat.mod_eq_of_lt (by simp only [SIZE_MAX] at *; omega)
                rw [hnt] at hle hconf
                refine ⟨store₁, hout, by omega, ?_⟩
                intro i hi
                rw [hconf i (by omega)]
                exact writeRange_out _ _ _ _ (by
                  rw [sliceBytes_length]
                  omega)

theorem finish_exists (buf : List Nat) (value : CborValue) (buflen : Nat)
    (wantNext : Bool) (W : Nat → Nat) (ptr total : Nat)
    (hok : exceptIsOk (copy_string_finish buf value buflen wantNext
      (some W) ptr total) = true) :
    ∃ (nx : Option CborValue),
      copy_string_finish buf value buflen wantNext (some W) ptr total =
        .ok (some (if total < buflen then writeRange W total [0] else W), total, nx) := by
  unfold copy_string_finish at hok ⊢
  cases wantNext with
  | false => exact ⟨none, rfl⟩
  | true =>
    cases hx : preparse_next_value buf { value with ptr := ptr } with
    | error err =>
      rw [hx] at hok
      exact absurd hok (by simp [exceptIsOk])
    | ok nx =>
      refine ⟨some nx, ?_⟩
      simp only [hx]
      simp

theorem copy_string_shape (buf : List Nat) (value : CborValue)
    (store : Nat → Nat) (buflen : Nat) (wantNext : Bool)
    (hok : exceptIsOk (cbor_value_copy_string buf value (some store) buflen
      wantNext) = true) :
    ∃ (W : Nat → Nat) (total : Nat) (nx : Option CborValue),
      cbor_value_copy_string buf value (some store) buflen wantNext =
        .ok (some (if total < buflen then writeRange W total [0] else W), total, nx) ∧
      ∀ i, total ≤ i → W i = store i := by
  by_cases hk : cbor_value_is_length_known value = true
  · cases hx : extract_length buf value.ptr with
    | error err =>
      have hE : cbor_value_copy_string buf value (some store) buflen wantNext =
          .error err := by
        unfold cbor_value_copy_string
        rw [if_pos hk, hx]
      rw [hE] at hok
      exact absurd hok (by simp [exceptIsOk])
    | ok tp =>
      obtain ⟨total, p⟩ := tp
      by_cases hroom : buflen < total
      · have hE : cbor_value_copy_string buf value (some store) buflen wantNext =
            .error .OutOfMemory := by
          unfold cbor_value_copy_string
          rw [if_pos hk, hx]
          exact if_pos hroom
        rw [hE] at hok
        exact absurd hok (by simp [exceptIsOk])
      · have hE : cbor_value_copy_string buf value (some store) buflen wantNext =
            copy_string_finish buf value buflen wantNext
              (some (writeRange store 0 (sliceBytes buf p total))) (p + total) total := by
          unfold cbor_value_copy_string
          rw [if_pos hk, hx]
          exact if_neg hroom
        rw [hE] at hok
        obtain ⟨nx, hfin⟩ := finish_exists buf value buflen wantNext _ _ _ hok
        refine ⟨writeRange store 0 (sliceBytes buf p total), total, nx, ?_, ?_⟩
        · rw [hE, hfin]
        · intro i hi
          exact writeRange_out _ _ _ _ (Or.inr (by rw [sliceBytes_length]; omega))
  · cases hx : copy_string_loop buf value.type buflen (buf.length + 1)
        (value.ptr + 1) 0 (some store) with
    | error err =>
      have hE : cbor_value_copy_string buf value (some store) buflen wantNext =
          .error err := by
        unfold cbor_value_copy_string
        rw [if_neg hk, hx]
      rw [hE] at hok
      exact absurd hok (by simp [exceptIsOk])
    | ok r =>
      obtain ⟨out, total, ptr'⟩ := r
      obtain ⟨W, hout, _, hconf⟩ :=
        copy_loop_writes buf value.type buflen _ _ _ _ _ _ _ hx
      subst hout
      have hE : cbor_value_copy_string buf value (some store) buflen wantNext =
          copy_string_finish buf value buflen wantNext (some W) ptr' total := by
        unfold cbor_value_copy_string
        rw [if_neg hk, hx]
      rw [hE] at hok
      obtain ⟨nx, hfin⟩ := finish_exists buf value buflen wantNext _ _ _ hok
      refine ⟨W, total, nx, ?_, ?_⟩
      · rw [hE, hfin]
      · intro i hi
        exact hconf i (Or.inr hi)

/-- C10: whenever `cbor_value_copy_string` succeeds with a non-null destination
buffer, the destination is returned; if the capacity strictly exceeds the
reported total length, a NUL byte is written immediately after the last copied
byte (at index `total`, which is not counted in the reported length); if the
capacity equals the total exactly, no terminator is written (the destination is
untouched at every index from `total` on) but the copy still succeeds. -/
theorem c10_copy_string_nul_terminator (buf : List Nat) (value : CborValue)
    (store : Nat → Nat) (buflen : Nat) (wantNext : Bool)
    (hok : exceptIsOk (cbor_value_copy_string buf value (some store) buflen
      wantNext) = true) :
    copyResultHasStore (cbor_value_copy_string buf value (some store) buflen
      wantNext) = true ∧
    (copyResultTotal (cbor_value_copy_string buf value (some store) buflen
        wantNext) < buflen →
      copyResultStore (cbor_value_copy_string buf value (some store) buflen
          wantNext)
        (copyResultTotal (cbor_value_copy_string buf value (some store) buflen
          wantNext)) = 0) ∧
    (buflen = copyResultTotal (cbor_value_copy_string buf value (some store)
        buflen wantNext) →
      ∀ i, copyResultTotal (cbor_value_copy_string buf value (some store) buflen
          wantNext) ≤ i →
        copyResultStore (cbor_value_copy_string buf value (some store) buflen
          wantNext) i = store i) := by
  obtain ⟨W, total, nx, hE, hW⟩ := copy_string_shape buf value store buflen wantNext hok
  rw [hE]
  simp only [copyResultHasStore, copyResultStore, copyResultTotal]
  refine ⟨trivial, ?_, ?_⟩
  · intro hlt
    rw [if_pos hlt]
    rw [writeRange_in _ _ _ _ (le_refl _) (by simp)]
    simp
  · intro heq i hi
    rw [if_neg (by omega)]
    exact hW i hi

theorem c10_copy_string_nul_terminator_witness :
    exceptIsOk (cbor_value_copy_string [65, 97] ⟨0, 1, 1, 64, 0⟩
      (some (fun _ => 7)) 2 false) = true ∧
    (copyResultHasStore (cbor_value_copy_string [65, 97] ⟨0, 1, 1, 64, 0⟩
        (some (fun _ => 7)) 2 false) = true ∧
      (copyResultTotal (cbor_value_copy_string [65, 97] ⟨0, 1, 1, 64, 0⟩
          (some (fun _ => 7)) 2 false) < 2 →
        copyResultStore (cbor_value_copy_string [65, 97] ⟨0, 1, 1, 64, 0⟩
            (some (fun _ => 7)) 2 false)
          (copyResultTotal (cbor_value_copy_string [65, 97] ⟨0, 1, 1, 64, 0⟩
            (some (fun _ => 7)) 2 false)) = 0) ∧
      (2 = copyResultTotal (cbor_value_copy_string [65, 97] ⟨0, 1, 1, 64, 0⟩
          (some (fun _ => 7)) 2 false) →
        ∀ i, copyResultTotal (cbor_value_copy_string [65, 97] ⟨0, 1, 1, 64, 0⟩
            (some (fun _ => 7)) 2 false) ≤ i →
          copyResultStore (cbor_value_copy_string [65, 97] ⟨0, 1, 1, 64, 0⟩
            (some (fun _ => 7)) 2 false) i = (fun _ => 7) i)) :=
  ⟨by decide, c10_copy_string_nul_terminator [65, 97] ⟨0, 1, 1, 64, 0⟩
    (fun _ => 7) 2 false (by decide)⟩
